import Mathlib

/-!
Shallow embedding of the libp2p-workshop node (src/src/main.rs): the
announcement codec (prost-encoded `FileAnnouncement` wrapped in an
unsigned-varint length-prefix frame), the content directory, the offered
content store, the pending-request tracker, and the event-loop handlers
for timer ticks, stdin commands, gossipsub messages and request-response
messages.  Bytes are modelled as `Nat` values below 256 in `List`s;
Rust `String`s are modelled by their UTF-8 byte sequences, so string
equality coincides with byte equality.  Effects that leave the process
(publishes, address registrations, log lines) are returned as data; a
Rust panic is modelled by an `Option`/dedicated outcome constructor and
a `?`-propagated error (which terminates the event loop in `main`) by
`Except.error`.
-/

namespace Workshop

/-- A Rust `Vec<u8>` / `String` payload: a list of byte values. -/
abbrev ByteStr := List Nat

/-! ## LEB128 unsigned varint

`unsigned_varint::encode` emits 7 bits per byte, least significant
first, setting the continuation bit 0x80 on every byte but the last. -/

/-- The LEB128 emit loop with an explicit recursion bound; `fuel ≥ n`
always suffices, since the value shrinks by a factor 128 per byte (the
`fuel = 0` fallback is unreachable then: it would need `n ≥ 128 > fuel`). -/
def encodeVarintAux : Nat → Nat → List Nat
  | 0, n => [n % 128]
  | fuel + 1, n =>
    if n < 128 then [n]
    else (n % 128 + 128) :: encodeVarintAux fuel (n / 128)

/-- Canonical LEB128 encoding of `n` (as produced by `unsigned_varint`
and by prost for keys and lengths). -/
def encodeVarint (n : Nat) : List Nat := encodeVarintAux n n

/-- Result of reading one varint from a byte stream: a malformed varint
(`unsigned_varint::decode::Error::Overflow`/`NotMinimal`), a stream that
ended mid-varint (`Error::Insufficient`), or the value with the
remaining bytes. -/
inductive VarintRes where
  | err : VarintRes
  | insufficient : VarintRes
  | ok (n : Nat) (rest : List Nat) : VarintRes
deriving DecidableEq, Repr

/-- One step-indexed varint read, mirroring the decode loop of the
`unsigned_varint` crate for `u64` (also used by prost): byte `i`
contributes its low 7 bits at position `7*i` into a wrapping 64-bit
accumulator; a clear continuation bit ends the read; a continuation bit
on the 10th byte (`i = 9`) is an overflow error.  `strict` enables the
crate's `NotMinimal` check (a final zero byte after the first byte);
prost performs no such check. -/
def varintFrom (strict : Bool) (i acc : Nat) : List Nat → VarintRes
  | [] => .insufficient
  | b :: rest =>
    let n := (acc + b % 128 * 2 ^ (7 * i)) % 2 ^ 64
    if b % 128 = b then
      if strict && (decide (0 < i) && decide (b = 0)) then .err
      else .ok n rest
    else if i = 9 then .err
    else varintFrom strict (i + 1) n rest

/-! ## Outer frame: `unsigned_varint::codec::UviBytes`

`UviBytes::encode` writes the varint length followed by the payload.
`UviBytes::decode` reads the length (an `Insufficient` varint means the
frame is not yet complete, any other decode error is an `io::Error`
surfaced to the caller), then splits off that many payload bytes,
reporting an incomplete frame when fewer are buffered.  The default
`max_len` is `usize::MAX`, so the length-limit branch never errors. -/

/-- Result of `UviBytes::decode` on a buffer: `Err(_)`, `Ok(None)`
(incomplete), or `Ok(Some(frame))` with the unconsumed remainder. -/
inductive UviRes where
  | err : UviRes
  | incomplete : UviRes
  | frame (payload rest : List Nat) : UviRes
deriving DecidableEq, Repr

/-- `UviBytes::default().decode` on `src`. -/
def uviDecode (src : List Nat) : UviRes :=
  match varintFrom true 0 0 src with
  | .err => .err
  | .insufficient => .incomplete
  | .ok len rest =>
    if len ≤ rest.length then .frame (rest.take len) (rest.drop len)
    else .incomplete

/-- `UviBytes::default().encode`: varint length prefix, then payload. -/
def uviEncode (payload : List Nat) : List Nat :=
  encodeVarint payload.length ++ payload

/-! ## UTF-8 validity

Rust's `String` invariant and `str::from_utf8` check (RFC 3629): used
by prost when decoding the `string` field and by the responder when
decoding a request payload. -/

/-- A UTF-8 continuation byte: `0x80 ..= 0xBF`. -/
def isCont (b : Nat) : Bool := 0x80 ≤ b && b ≤ 0xBF

/-- Whether a byte sequence is valid UTF-8, per the byte-range table of
RFC 3629 (the check performed by `str::from_utf8`). -/
def validUtf8 : List Nat → Bool
  | [] => true
  | b :: rest =>
    if b ≤ 0x7F then validUtf8 rest
    else if 0xC2 ≤ b && b ≤ 0xDF then
      match rest with
      | c1 :: rest2 => isCont c1 && validUtf8 rest2
      | [] => false
    else if b = 0xE0 then
      match rest with
      | c1 :: c2 :: rest2 => (0xA0 ≤ c1 && c1 ≤ 0xBF) && isCont c2 && validUtf8 rest2
      | _ => false
    else if b = 0xED then
      match rest with
      | c1 :: c2 :: rest2 => (0x80 ≤ c1 && c1 ≤ 0x9F) && isCont c2 && validUtf8 rest2
      | _ => false
    else if 0xE1 ≤ b && b ≤ 0xEF then
      match rest with
      | c1 :: c2 :: rest2 => isCont c1 && isCont c2 && validUtf8 rest2
      | _ => false
    else if b = 0xF0 then
      match rest with
      | c1 :: c2 :: c3 :: rest2 =>
        (0x90 ≤ c1 && c1 ≤ 0xBF) && isCont c2 && isCont c3 && validUtf8 rest2
      | _ => false
    else if 0xF1 ≤ b && b ≤ 0xF3 then
      match rest with
      | c1 :: c2 :: c3 :: rest2 => isCont c1 && isCont c2 && isCont c3 && validUtf8 rest2
      | _ => false
    else if b = 0xF4 then
      match rest with
      | c1 :: c2 :: c3 :: rest2 =>
        (0x80 ≤ c1 && c1 ≤ 0x8F) && isCont c2 && isCont c3 && validUtf8 rest2
      | _ => false
    else false

/-! ## `message_proto::FileAnnouncement`

Generated by prost from `message.proto`:
`message FileAnnouncement { string filename = 1; repeated bytes addrs = 2; }`. -/

/-- `FileAnnouncement { filename, addrs }`, with the Rust `String`
represented by its UTF-8 bytes. -/
structure FileAnnouncement where
  filename : ByteStr
  addrs : List ByteStr
deriving DecidableEq, Repr

/-- prost `Message::encode` for `FileAnnouncement`: field 1 (key
`1<<3|2 = 10`) is skipped when the string is empty (the proto3
default); every element of the repeated field 2 (key `2<<3|2 = 18`) is
emitted, each as key, varint length, raw bytes. -/
def encodeAnn (a : FileAnnouncement) : List Nat :=
  (if a.filename = [] then []
   else encodeVarint 10 ++ encodeVarint a.filename.length ++ a.filename)
  ++ (a.addrs.map fun blob => encodeVarint 18 ++ encodeVarint blob.length ++ blob).flatten

/-- Read one length-delimited value (varint length, then that many
bytes), as prost does for `string`/`bytes` fields; `none` on a
malformed or truncated length or a truncated payload. -/
def readLenDelim (bytes : List Nat) : Option (List Nat × List Nat) :=
  match varintFrom false 0 0 bytes with
  | .ok len rest =>
    if len ≤ rest.length then some (rest.take len, rest.drop len) else none
  | _ => none

/-- prost `skip_field` for an unknown field of the given wire type
(varint, 64-bit, length-delimited, 32-bit; group wire types are
rejected). -/
def skipField (wt : Nat) (bytes : List Nat) : Option (List Nat) :=
  if wt = 0 then
    match varintFrom false 0 0 bytes with
    | .ok _ rest => some rest
    | _ => none
  else if wt = 1 then
    if 8 ≤ bytes.length then some (bytes.drop 8) else none
  else if wt = 2 then (readLenDelim bytes).map (·.2)
  else if wt = 5 then
    if 4 ≤ bytes.length then some (bytes.drop 4) else none
  else none

/-- The prost merge loop for `FileAnnouncement::decode`: read a key,
dispatch on the field tag (field 1 replaces the filename after the
UTF-8 check; field 2 appends one blob; unknown fields are skipped),
until the buffer is exhausted.  `fuel` bounds the number of fields;
each field consumes at least its key byte, so `bytes.length` suffices. -/
def decodeAnnFrom (fuel : Nat) (fn : ByteStr) (ads : List ByteStr) :
    List Nat → Option (ByteStr × List ByteStr)
  | [] => some (fn, ads)
  | b :: bs =>
    match fuel with
    | 0 => none
    | fuel + 1 =>
      match varintFrom false 0 0 (b :: bs) with
      | .ok key rest =>
        let tag := key / 8
        let wt := key % 8
        if tag = 0 then none
        else if tag = 1 then
          if wt = 2 then
            match readLenDelim rest with
            | some (blob, rest2) =>
              if validUtf8 blob then decodeAnnFrom fuel blob ads rest2 else none
            | none => none
          else none
        else if tag = 2 then
          if wt = 2 then
            match readLenDelim rest with
            | some (blob, rest2) => decodeAnnFrom fuel fn (ads ++ [blob]) rest2
            | none => none
          else none
        else
          match skipField wt rest with
          | some rest2 => decodeAnnFrom fuel fn ads rest2
          | none => none
      | _ => none

/-- `FileAnnouncement::decode` on a whole buffer (the `Cursor` is read
to its end), starting from the proto3 defaults. -/
def decodeAnn (bytes : List Nat) : Option FileAnnouncement :=
  (decodeAnnFrom bytes.length [] [] bytes).map fun p => ⟨p.1, p.2⟩

/-- The full wire encoding published on the content topic: prost record
wrapped in one `UviBytes` length-prefix frame (main.rs lines 90-98). -/
def encodeFrame (a : FileAnnouncement) : List Nat :=
  uviEncode (encodeAnn a)

/-- The successful-decode composition used by the content-topic handler
(main.rs lines 215-225): outer `UviBytes::decode`, then
`FileAnnouncement::decode` on the frame, each failure collapsed to
`none` (the handler treats `Ok(None)` and an inner decode error alike;
the outer `Err` case is distinguished in the handler itself). -/
def decodeFrame (data : List Nat) : Option FileAnnouncement :=
  match uviDecode data with
  | .frame payload _ => decodeAnn payload
  | _ => none

/-! ## Node state and effects

The three `HashMap`s owned by the event loop (main.rs lines 73-75) are
modelled as association lists whose `lookup` finds the most recent
entry; `HashMap::insert`'s replace semantics are modelled by erasing
the old entry before consing.  `PeerId`s and `RequestId`s are opaque:
`Nat`. -/

/-- `HashMap::insert`: replaces any existing entry for the key. -/
def insertKV [BEq α] (k : α) (v : β) (m : List (α × β)) : List (α × β) :=
  (k, v) :: m.eraseP fun p => p.1 == k

/-- `HashMap::remove`: drops the entry for the key, if any. -/
def removeKV [BEq α] (k : α) (m : List (α × β)) : List (α × β) :=
  m.eraseP fun p => p.1 == k

/-- The gossipsub topics the node subscribes to (main.rs lines 59-61). -/
inductive Topic where
  | chat | addresses | files
deriving DecidableEq, Repr

/-- Externally visible actions of one handler run: publishes, address
registrations, request-response sends, file writes and log lines. -/
inductive Effect where
  | publish (topic : Topic) (data : List Nat)
  | addAddress (peer : Nat) (addr : ByteStr)
  | sendRequest (peer : Nat) (payload : ByteStr)
  | sendResponse (payload : ByteStr)
  | writeFile (name : ByteStr) (content : ByteStr)
  | logInvalidCommand
  | logInvalidMessage
  | logNoProvider (name : ByteStr)
  | logRequested (name : ByteStr)
  | logCannotAccess (path : ByteStr)
  | logInvalidRequest (request : ByteStr)
  | logNewProvider (peer : Nat) (name : ByteStr)
deriving DecidableEq, Repr

/-- A `?`-propagated error in the loop body: it leaves `main` and
terminates the event loop. -/
inductive Fatal where
  | frameDecode | badAddr
deriving DecidableEq, Repr

/-- Map each address blob through `Multiaddr::try_from`; the `?` on a
failure makes the whole loop fatal, so the successful case collects the
parsed addresses in order. -/
def parseAll (parseAddr : ByteStr → Option ByteStr) : List ByteStr → Option (List ByteStr)
  | [] => some []
  | a :: rest =>
    match parseAddr a with
    | none => none
    | some x => (parseAll parseAddr rest).map (x :: ·)

/-- Content-topic handler (main.rs lines 214-232): outer frame decode
(`?` on `Err`), inner prost decode (log-and-continue on failure),
`Multiaddr::try_from` on each advertised blob (`?` on failure), then a
first-writer-wins insert through `file_list.entry(..)`.
`parseAddr` models the external multiaddr parser at its interface;
`src` is the already-unwrapped gossipsub message source. -/
def handleProviderMsg (parseAddr : ByteStr → Option ByteStr) (src : Nat)
    (fileList : List (ByteStr × Nat)) (data : List Nat) :
    Except Fatal (List (ByteStr × Nat) × List Effect) :=
  match uviDecode data with
  | .err => .error .frameDecode
  | .incomplete => .ok (fileList, [.logInvalidMessage])
  | .frame payload _ =>
    match decodeAnn payload with
    | none => .ok (fileList, [.logInvalidMessage])
    | some ann =>
      match parseAll parseAddr ann.addrs with
      | none => .error .badAddr
      | some parsed =>
        let effs := parsed.map (Effect.addAddress src)
        if (fileList.lookup ann.filename).isSome then .ok (fileList, effs)
        else .ok ((ann.filename, src) :: fileList,
                  effs ++ [.logNewProvider src ann.filename])

/-- Address-topic handler (main.rs lines 233-236):
`Multiaddr::try_from(data).unwrap()` — a parse failure panics
(modelled as `none`); success registers the address. -/
def handleAddrsMsg (parseAddr : ByteStr → Option ByteStr) (src : Nat)
    (data : List Nat) : Option (List Effect) :=
  (parseAddr data).map fun addr => [.addAddress src addr]

/-- GET handler (main.rs lines 136-147): look the name up in the
content directory; absent means log and continue with nothing sent;
present means send the request (the behaviour picks `rid`) and track it. -/
def handleGet (fileList : List (ByteStr × Nat)) (pending : List (Nat × ByteStr))
    (rid : Nat) (arg : ByteStr) : List (Nat × ByteStr) × List Effect :=
  match fileList.lookup arg with
  | none => (pending, [.logNoProvider arg])
  | some provider =>
    (insertKV rid arg pending, [.sendRequest provider arg, .logRequested arg])

/-- `Path::file_name().and_then(|s| s.to_str())` on a Unix path given
as bytes: the last component after splitting on `/`, with empty and `.`
components dropped; no component, or a final `..`, gives `None`, and a
non-UTF-8 component fails `to_str`. -/
def derivedFileName (p : ByteStr) : Option ByteStr :=
  let comps := (p.splitOn 47).filter fun c => c != [] && c != [46]
  match comps.getLast? with
  | none => none
  | some c =>
    if c = [46, 46] then none
    else if validUtf8 c then some c else none

/-- PUT handler (main.rs lines 148-156): an unopenable path is logged
and skipped; otherwise the derived file name is `unwrap`ped (`none`
models the panic when it is absent) and `{name -> path}` inserted into
`providing` with `HashMap::insert` replace semantics.  `openable`
models `std::fs::File::open(..).is_ok()` at its interface. -/
def handlePut (openable : ByteStr → Bool) (providing : List (ByteStr × ByteStr))
    (arg : ByteStr) : Option (List (ByteStr × ByteStr) × List Effect) :=
  if !openable arg then some (providing, [.logCannotAccess arg])
  else
    match derivedFileName arg with
    | none => none
    | some name => some (insertKV name arg providing, [])

/-- `String::split_once(' ')` generalised to a byte separator: split at
the first occurrence, `none` when the separator does not occur. -/
def splitOnce (sep : Nat) : ByteStr → Option (ByteStr × ByteStr)
  | [] => none
  | b :: rest =>
    if b = sep then some ([], rest)
    else (splitOnce sep rest).map fun p => (b :: p.1, p.2)

/-- The mutable state the command branch can touch. -/
structure CmdState where
  fileList : List (ByteStr × Nat)
  providing : List (ByteStr × ByteStr)
  pending : List (Nat × ByteStr)
deriving DecidableEq, Repr

/-- Which Rust panic fired: the `expect("Stdin not to close")` on an
`Err` item yielded by the lines stream, or the `unwrap()` of a missing
derived file name. -/
inductive PanicMsg where
  | stdinNotToClose
  | unwrapNone
deriving DecidableEq, Repr

/-- Outcome of one `select!` round with respect to the stdin branch: a
panic (with the Rust panic message), the branch disabled because the
fused lines stream has terminated (`select_next_some` yields no item
from a terminated stream, so the loop continues on the timer and
network sources with all state untouched), or a continuation with the
new state and its effects. -/
inductive StdinStep where
  | panicked (msg : PanicMsg)
  | disabled
  | step (s : CmdState) (effs : List Effect)
deriving DecidableEq, Repr

/-- What polling the fused `io::BufReader::new(io::stdin()).lines()`
stream produced for this `select!` round: the stream has terminated
(clean end-of-stream: `read_line` returned `Ok(0)`, so `lines` yielded
`None` and the fuse latched), or it yielded one item, an
`Err(io::Error)` read failure or an `Ok(String)` line. -/
inductive StdinPoll where
  | closed
  | item (line : Except Unit ByteStr)
deriving Repr

/-- Stdin branch (main.rs lines 71 and 115-161) as driven by
`stdin.select_next_some()` inside `select!`: a terminated stream never
resolves this branch — `select_next_some` is termination-aware, so the
branch is disabled and the loop keeps running on the other sources.
Only a yielded item reaches the branch body, where
`line.expect("Stdin not to close")` panics on an `Err` item; an `Ok`
line is split into prefix and argument and dispatched to MSG/GET/PUT,
with unknown or malformed commands logged and skipped. -/
def handleStdin (openable : ByteStr → Bool) (rid : Nat) (s : CmdState) :
    StdinPoll → StdinStep
  | .closed => .disabled
  | .item (.error _) => .panicked .stdinNotToClose
  | .item (.ok line) =>
    match splitOnce 32 line with
    | none => .step s [.logInvalidCommand]
    | some (word, arg) =>
      if word = [77, 83, 71] then -- "MSG"
        .step s [.publish .chat arg]
      else if word = [71, 69, 84] then -- "GET"
        let (pending, effs) := handleGet s.fileList s.pending rid arg
        .step { s with pending } effs
      else if word = [80, 85, 84] then -- "PUT"
        match handlePut openable s.providing arg with
        | none => .panicked .unwrapNone
        | some (providing, effs) => .step { s with providing } effs
      else .step s [.logInvalidCommand]

/-- Responder lookup chain (main.rs lines 245-246): UTF-8 decode the
request, look it up in `providing`, read the file at the recorded
path.  `readFile` models `std::fs::read(..).ok()` at its interface. -/
def serveRequest (providing : List (ByteStr × ByteStr))
    (readFile : ByteStr → Option ByteStr) (request : ByteStr) : Option ByteStr :=
  ((if validUtf8 request then some request else none).bind
    fun name => providing.lookup name).bind readFile

/-- Inbound-request handler (main.rs lines 242-254): a failed lookup
chain is logged and nothing is sent; otherwise the file content is the
response payload. -/
def handleRequest (providing : List (ByteStr × ByteStr))
    (readFile : ByteStr → Option ByteStr) (request : ByteStr) : List Effect :=
  match serveRequest providing readFile request with
  | some content => [.sendResponse content]
  | none => [.logInvalidRequest request]

/-- Response handler (main.rs lines 255-272):
`pending_requests.remove(&request_id).unwrap()` — an untracked
`request_id` panics (modelled as `none`); a tracked one is removed and
the response bytes are written to the recorded name. -/
def handleResponse (pending : List (Nat × ByteStr)) (rid : Nat)
    (response : ByteStr) : Option (List (Nat × ByteStr) × List Effect) :=
  match pending.lookup rid with
  | none => none
  | some name => some (removeKV rid pending, [.writeFile name response])

/-- Whether an effect publishes, on the content topic, a payload that
decodes to the announcement of `name` with address set `addrs`. -/
def announcesName (addrs : List ByteStr) (name : ByteStr) : Effect → Bool
  | .publish .files d => decodeFrame d == some ⟨name, addrs⟩
  | _ => false

/-- Timer branch (main.rs lines 86-112): for each offered name, encode
one announcement carrying the node's current listener set and publish
it on the content topic; then rearm the 5-second delay (the returned
`Nat`). -/
def timerTick (providing : List (ByteStr × ByteStr)) (listenAddrs : List ByteStr) :
    List Effect × Nat :=
  (providing.map fun kv => .publish .files (encodeFrame ⟨kv.1, listenAddrs⟩), 5)

/-! ## Codec round-trip lemmas -/

/-- The emit loop is insensitive to the exact fuel, once sufficient. -/
theorem encodeVarintAux_fuel (f1 : Nat) (f2 n : Nat) (h1 : n ≤ f1) (h2 : n ≤ f2) :
    encodeVarintAux f1 n = encodeVarintAux f2 n := by
  induction f1 generalizing f2 n with
  | zero =>
    have hn : n = 0 := by omega
    subst hn
    cases f2 with
    | zero => rfl
    | succ f => simp [encodeVarintAux]
  | succ f1 ih =>
    cases f2 with
    | zero =>
      have hn : n = 0 := by omega
      subst hn
      simp [encodeVarintAux]
    | succ f2 =>
      by_cases h : n < 128
      · simp [encodeVarintAux, h]
      · have hlt : n / 128 < n := Nat.div_lt_self (by omega) (by omega)
        simp only [encodeVarintAux, if_neg h]
        rw [ih f2 (n / 128) (by omega) (by omega)]

theorem encodeVarint_small {n : Nat} (h : n < 128) : encodeVarint n = [n] := by
  cases n with
  | zero => rfl
  | succ m => simp [encodeVarint, encodeVarintAux, h]

theorem encodeVarint_large {n : Nat} (h : ¬ n < 128) :
    encodeVarint n = (n % 128 + 128) :: encodeVarint (n / 128) := by
  obtain ⟨m, rfl⟩ : ∃ m, n = m + 1 := ⟨n - 1, by omega⟩
  have hlt : (m + 1) / 128 < m + 1 := Nat.div_lt_self (by omega) (by omega)
  show encodeVarintAux (m + 1) (m + 1) = _
  simp only [encodeVarintAux, if_neg h]
  rw [encodeVarintAux_fuel m ((m + 1) / 128) ((m + 1) / 128) (by omega) (by omega)]
  rfl

/-- Reading the canonical encoding of `n` from byte position `i` with
accumulator `acc` returns `acc + n·2^(7i)`, provided that value fits in
64 bits; the first byte of a multi-byte tail is never zero, so the
strict (`NotMinimal`) check also passes. -/
theorem varintFrom_encodeVarint (strict : Bool) (n i acc : Nat) (rest : List Nat)
    (hpos : i = 0 ∨ 0 < n) (hlt : acc + n * 2 ^ (7 * i) < 2 ^ 64) :
    varintFrom strict i acc (encodeVarint n ++ rest) = .ok (acc + n * 2 ^ (7 * i)) rest := by
  by_cases h : n < 128
  · rw [encodeVarint_small h]
    have hmod : n % 128 = n := Nat.mod_eq_of_lt h
    have hflag : (strict && (decide (0 < i) && decide (n = 0))) = false := by
      rcases hpos with hi | hn
      · subst hi; simp
      · have hne : n ≠ 0 := by omega
        simp [hne]
    simp only [List.cons_append, List.nil_append, varintFrom, hmod, if_pos rfl, hflag,
      Bool.false_eq_true, if_false, if_true, Nat.mod_eq_of_lt hlt, List.append_eq]
  · rw [encodeVarint_large h]
    have h128 : 128 ≤ n := Nat.le_of_not_lt h
    have h2 : (n % 128 + 128) % 128 = n % 128 := by omega
    have hbne : ¬ (n % 128 + 128) % 128 = n % 128 + 128 := by omega
    have hstep : acc + (n % 128 + 128) % 128 * 2 ^ (7 * i) < 2 ^ 64 := by
      rw [h2]
      have h3 : n % 128 * 2 ^ (7 * i) ≤ n * 2 ^ (7 * i) :=
        Nat.mul_le_mul_right _ (Nat.mod_le _ _)
      omega
    have hi9 : ¬ i = 9 := by
      intro hi
      subst hi
      have h63 : (2:Nat) ^ (7 * 9) = 2 ^ 63 := by norm_num
      have h2n : n < 2 := by
        by_contra hh
        have hge : 2 * 2 ^ 63 ≤ n * 2 ^ 63 := Nat.mul_le_mul_right _ (by omega)
        have h64 : (2:Nat) * 2 ^ 63 = 2 ^ 64 := by norm_num
        rw [h63] at hlt
        omega
      omega
    have hkey : (acc + (n % 128 + 128) % 128 * 2 ^ (7 * i)) % 2 ^ 64 + n / 128 * 2 ^ (7 * (i + 1))
        = acc + n * 2 ^ (7 * i) := by
      rw [Nat.mod_eq_of_lt hstep, h2]
      have hp : (2:Nat) ^ (7 * (i + 1)) = 2 ^ (7 * i) * 128 := by ring
      rw [hp]
      have hr : n % 128 * 2 ^ (7 * i) + n / 128 * (2 ^ (7 * i) * 128)
          = (n % 128 + 128 * (n / 128)) * 2 ^ (7 * i) := by ring
      rw [Nat.add_assoc, hr, Nat.mod_add_div]
    have hrec := varintFrom_encodeVarint strict (n / 128) (i + 1)
      ((acc + (n % 128 + 128) % 128 * 2 ^ (7 * i)) % 2 ^ 64) rest
      (Or.inr (Nat.div_pos h128 (by omega)))
      (by rw [hkey]; exact hlt)
    simp only [List.cons_append, varintFrom, if_neg hbne, if_neg hi9, List.append_eq]
    rw [hrec, hkey]
termination_by n
decreasing_by exact Nat.div_lt_self (by omega) (by omega)

/-- Reading one whole canonical varint. -/
theorem varintFrom_encode0 (strict : Bool) (n : Nat) (rest : List Nat) (h : n < 2 ^ 64) :
    varintFrom strict 0 0 (encodeVarint n ++ rest) = .ok n rest := by
  have hv := varintFrom_encodeVarint strict n 0 0 rest (Or.inl rfl) (by simpa using h)
  simpa using hv
/-- `UviBytes` round-trip: decoding an encoded frame recovers the
payload and leaves trailing bytes unconsumed. -/
theorem uviDecode_uviEncode (payload rest : List Nat) (h : payload.length < 2 ^ 64) :
    uviDecode (uviEncode payload ++ rest) = .frame payload rest := by
  rw [uviEncode, uviDecode, List.append_assoc, varintFrom_encode0 true _ _ h]
  simp [List.take_left, List.drop_left]

/-- prost length-delimited round-trip. -/
theorem readLenDelim_append (blob rest : List Nat) (h : blob.length < 2 ^ 64) :
    readLenDelim (encodeVarint blob.length ++ (blob ++ rest)) = some (blob, rest) := by
  rw [readLenDelim, varintFrom_encode0 false _ _ h]
  simp [List.take_left, List.drop_left]

/-- A single-byte varint key. -/
theorem varintFrom_byte (strict : Bool) (b : Nat) (rest : List Nat)
    (hb : b < 128) (hb0 : 0 < b) :
    varintFrom strict 0 0 (b :: rest) = .ok b rest := by
  have hv := varintFrom_encode0 strict b rest (by omega)
  rwa [encodeVarint_small hb] at hv

/-- Each encoded repeated-field element occupies at least one byte, so
the element count bounds the flattened encoding length. -/
theorem addrs_length_le (l : List ByteStr) :
    l.length ≤ ((l.map fun blob => encodeVarint 18 ++ encodeVarint blob.length ++ blob).flatten).length := by
  induction l with
  | nil => simp
  | cons blob tl ih =>
    have h1 : (encodeVarint 18).length = 1 := by rw [encodeVarint_small (by omega)]; rfl
    simp only [List.map_cons, List.flatten_cons, List.length_append, List.length_cons]
    omega

/-- The merge loop over the encoded repeated `addrs` field appends the
blobs, in order, to the accumulated list. -/
theorem decodeAnnFrom_addrs (l : List ByteStr) (fn : ByteStr) (ads : List ByteStr)
    (fuel : Nat) (hf : l.length ≤ fuel) (hl : ∀ b ∈ l, b.length < 2 ^ 64) :
    decodeAnnFrom fuel fn ads
      ((l.map fun blob => encodeVarint 18 ++ encodeVarint blob.length ++ blob).flatten)
      = some (fn, ads ++ l) := by
  induction l generalizing ads fuel with
  | nil => simp [decodeAnnFrom]
  | cons blob tl ih =>
    have h18 : encodeVarint 18 = [18] := encodeVarint_small (by omega)
    have hblob : blob.length < 2 ^ 64 := hl blob (by simp)
    match fuel with
    | 0 => simp at hf
    | fuel + 1 =>
      have hbytes :
          ((blob :: tl).map fun b => encodeVarint 18 ++ encodeVarint b.length ++ b).flatten
          = 18 :: (encodeVarint blob.length ++ (blob ++
              ((tl.map fun b => encodeVarint 18 ++ encodeVarint b.length ++ b).flatten))) := by
        simp [h18, List.append_assoc]
      rw [hbytes, decodeAnnFrom, varintFrom_byte false 18 _ (by omega) (by omega)]
      norm_num
      rw [readLenDelim_append _ _ hblob]
      have htl := ih (ads ++ [blob]) fuel (by simp at hf ⊢; omega)
        (fun b hb => hl b (by simp [hb]))
      simp only [List.append_assoc, List.singleton_append] at htl
      simpa using htl
/-- prost round-trip for `FileAnnouncement`: decoding an encoded record
yields the original message, under the inherent Rust-side bounds (the
filename is a `String`, hence valid UTF-8; lengths are `usize`). -/
theorem decodeAnn_encodeAnn (a : FileAnnouncement) (hutf : validUtf8 a.filename = true)
    (hfn : a.filename.length < 2 ^ 64) (hads : ∀ b ∈ a.addrs, b.length < 2 ^ 64) :
    decodeAnn (encodeAnn a) = some a := by
  rcases a with ⟨fn, ads⟩
  simp only at hutf hfn hads
  by_cases hemp : fn = []
  · subst hemp
    have henc : encodeAnn ⟨[], ads⟩
        = (ads.map fun b => encodeVarint 18 ++ encodeVarint b.length ++ b).flatten := by
      simp [encodeAnn]
    rw [decodeAnn, henc,
      decodeAnnFrom_addrs ads [] []
        ((ads.map fun b => encodeVarint 18 ++ encodeVarint b.length ++ b).flatten).length
        (addrs_length_le ads) hads]
    simp
  · have h10 : encodeVarint 10 = [10] := encodeVarint_small (by omega)
    have henc : encodeAnn ⟨fn, ads⟩
        = 10 :: (encodeVarint fn.length ++ (fn ++
            (ads.map fun b => encodeVarint 18 ++ encodeVarint b.length ++ b).flatten)) := by
      simp [encodeAnn, hemp, h10, List.append_assoc]
    rw [decodeAnn, henc, List.length_cons]
    generalize hF : (encodeVarint fn.length ++ (fn ++
        (ads.map fun b => encodeVarint 18 ++ encodeVarint b.length ++ b).flatten)).length = F
    have hf : ads.length ≤ F := by
      rw [← hF]
      simp only [List.length_append]
      have := addrs_length_le ads
      omega
    rw [decodeAnnFrom, varintFrom_byte false 10 _ (by omega) (by omega)]
    norm_num
    rw [readLenDelim_append _ _ hfn]
    simp only [hutf, if_true]
    have hfin := decodeAnnFrom_addrs ads fn [] F hf hads
    simpa [List.append_assoc] using hfin
/-- The filename is no longer than its encoded record. -/
theorem filename_length_le (a : FileAnnouncement) :
    a.filename.length ≤ (encodeAnn a).length := by
  rcases a with ⟨fn, ads⟩
  by_cases hemp : fn = []
  · subst hemp; simp
  · rw [encodeAnn]
    simp only [if_neg hemp, List.length_append]
    omega

/-- Every advertised blob is no longer than the encoded record. -/
theorem blob_length_le (a : FileAnnouncement) (b : ByteStr) (hb : b ∈ a.addrs) :
    b.length ≤ (encodeAnn a).length := by
  rcases a with ⟨fn, ads⟩
  have hmem : encodeVarint 18 ++ encodeVarint b.length ++ b
      ∈ ads.map fun x => encodeVarint 18 ++ encodeVarint x.length ++ x :=
    List.mem_map_of_mem _ hb
  have hsub := (List.sublist_flatten_of_mem hmem).length_le
  rw [encodeAnn]
  simp only [List.length_append] at hsub ⊢
  omega

/-- Full wire round-trip: `UviBytes` frame decode then prost decode of
an encoded announcement recovers it, whenever the encoded record fits
in a `usize` and the filename is valid UTF-8. -/
theorem decodeFrame_encodeFrame (a : FileAnnouncement) (hutf : validUtf8 a.filename = true)
    (hlen : (encodeAnn a).length < 2 ^ 64) :
    decodeFrame (encodeFrame a) = some a := by
  rw [encodeFrame, decodeFrame]
  have hd := uviDecode_uviEncode (encodeAnn a) [] hlen
  rw [List.append_nil] at hd
  rw [hd]
  exact decodeAnn_encodeAnn a hutf (lt_of_le_of_lt (filename_length_le a) hlen)
    (fun b hb => lt_of_le_of_lt (blob_length_le a b hb) hlen)

/-! ## Association-list lemmas -/

/-- `insertKV` makes the key map to the new value. -/
theorem lookup_insertKV_self [BEq α] [LawfulBEq α] (k : α) (v : β) (m : List (α × β)) :
    (insertKV k v m).lookup k = some v := by
  simp [insertKV, List.lookup]

/-- Erasing one key leaves lookups of other keys unchanged. -/
theorem lookup_eraseP_ne [BEq α] [LawfulBEq α] (k k' : α) (m : List (α × β)) (h : k' ≠ k) :
    (m.eraseP fun p => p.1 == k).lookup k' = m.lookup k' := by
  induction m with
  | nil => simp
  | cons hd tl ih =>
    by_cases hk : hd.1 = k
    · have hb : (hd.1 == k) = true := beq_iff_eq.mpr hk
      have hne : (k' == hd.1) = false := beq_false_of_ne (by rw [hk]; exact h)
      rcases hd with ⟨a, b⟩
      simp only at hb hne
      simp [List.eraseP_cons, hb, List.lookup, hne]
    · have hb : (hd.1 == k) = false := beq_false_of_ne hk
      rcases hd with ⟨a, b⟩
      simp only at hb
      by_cases hk' : k' = a
      · subst hk'
        simp [List.eraseP_cons, hb, List.lookup]
      · have hne : (k' == a) = false := beq_false_of_ne hk'
        simp [List.eraseP_cons, hb, List.lookup, hne, ih]

/-- `insertKV` leaves lookups of other keys unchanged. -/
theorem lookup_insertKV_ne [BEq α] [LawfulBEq α] (k k' : α) (v : β) (m : List (α × β))
    (h : k' ≠ k) : (insertKV k v m).lookup k' = m.lookup k' := by
  have hne : (k' == k) = false := beq_false_of_ne h
  simp [insertKV, List.lookup, hne, lookup_eraseP_ne k k' m h]

/-- In a duplicate-free list, exactly one element is `==` to a member. -/
theorem countP_beq_eq_one [BEq α] [LawfulBEq α] (name : α) (l : List α)
    (hnd : l.Nodup) (hmem : name ∈ l) : l.countP (· == name) = 1 := by
  induction l with
  | nil => simp at hmem
  | cons a tl ih =>
    rw [List.countP_cons]
    by_cases ha : a = name
    · subst ha
      have hnotin : a ∉ tl := (List.nodup_cons.mp hnd).1
      have hz : tl.countP (· == a) = 0 := by
        rw [List.countP_eq_zero]
        intro x hx
        simp only [beq_iff_eq]
        intro he
        exact hnotin (he ▸ hx)
      simp [hz]
    · have hmem2 : name ∈ tl := by
        rcases List.mem_cons.mp hmem with h | h
        · exact absurd h.symm ha
        · exact h
      have hne : (a == name) = false := beq_false_of_ne ha
      rw [ih (List.nodup_cons.mp hnd).2 hmem2]
      simp [hne]
/-! ## Claim theorems -/

/-- C1: first-writer-wins — once the content directory maps a name to a
provider, processing any further content-topic message (in particular a
successfully decoded announcement for the same name from any peer)
leaves that name's recorded provider unchanged. -/
theorem first_writer_wins_preserved
    (parseAddr : ByteStr → Option ByteStr) (src : Nat)
    (fileList : List (ByteStr × Nat)) (data : List Nat) (name : ByteStr)
    (s' : List (ByteStr × Nat)) (effs : List Effect)
    (hname : (fileList.lookup name).isSome = true)
    (hrun : handleProviderMsg parseAddr src fileList data = .ok (s', effs)) :
    s'.lookup name = fileList.lookup name := by
  cases hu : uviDecode data with
  | err => simp [handleProviderMsg, hu] at hrun
  | incomplete =>
    simp only [handleProviderMsg, hu, Except.ok.injEq, Prod.mk.injEq] at hrun
    rw [← hrun.1]
  | frame payload r =>
    cases hd : decodeAnn payload with
    | none =>
      simp only [handleProviderMsg, hu, hd, Except.ok.injEq, Prod.mk.injEq] at hrun
      rw [← hrun.1]
    | some ann =>
      cases hp : parseAll parseAddr ann.addrs with
      | none => simp [handleProviderMsg, hu, hd, hp] at hrun
      | some parsed =>
        cases hocc : fileList.lookup ann.filename with
        | some q =>
          simp only [handleProviderMsg, hu, hd, hp, hocc, Option.isSome_some, if_true,
            Except.ok.injEq, Prod.mk.injEq] at hrun
          rw [← hrun.1]
        | none =>
          simp only [handleProviderMsg, hu, hd, hp, hocc, Option.isSome_none,
            Bool.false_eq_true, if_false, Except.ok.injEq, Prod.mk.injEq] at hrun
          have hneq : name ≠ ann.filename := by
            intro he
            rw [he, hocc] at hname
            simp at hname
          have hne2 : (name == ann.filename) = false := beq_false_of_ne hneq
          rw [← hrun.1]
          simp [List.lookup, hne2]

/-- C1 witness: a second announcement for an already-mapped name (from
peer 2, with an address) leaves the original provider 1 in place. -/
theorem first_writer_wins_preserved_check :
    (([([104, 105], 1)] : List (ByteStr × Nat)).lookup [104, 105]).isSome = true ∧
    ([([104, 105], 1)] : List (ByteStr × Nat)).lookup [104, 105]
      = ([([104, 105], 1)] : List (ByteStr × Nat)).lookup [104, 105] :=
  ⟨by decide,
   first_writer_wins_preserved (fun b => some b) 2 [([104, 105], 1)]
     (encodeFrame ⟨[104, 105], [[4]]⟩) [104, 105]
     [([104, 105], 1)] [.addAddress 2 [4]] (by decide) rfl⟩

/-- C2: codec round-trip — decoding the framed encoding of any
announcement returns it, under the inherent Rust-side bounds (a
`String` filename is valid UTF-8; the encoded record fits a `usize`). -/
theorem codec_roundtrip (a : FileAnnouncement) (hutf : validUtf8 a.filename = true)
    (hlen : (encodeAnn a).length < 2 ^ 64) :
    decodeFrame (encodeFrame a) = some a :=
  decodeFrame_encodeFrame a hutf hlen

/-- C2 witness: a concrete two-address announcement (one address blob
empty) round-trips. -/
theorem codec_roundtrip_check :
    validUtf8 [104, 105] = true ∧
    (encodeAnn ⟨[104, 105], [[1, 2], []]⟩).length < 2 ^ 64 ∧
    decodeFrame (encodeFrame ⟨[104, 105], [[1, 2], []]⟩)
      = some ⟨[104, 105], [[1, 2], []]⟩ :=
  ⟨by decide, by decide,
   codec_roundtrip ⟨[104, 105], [[1, 2], []]⟩ (by decide) (by decide)⟩
/-- C3 (code bug): the response handler models
`pending_requests.remove(&request_id).unwrap()`; delivering a response
whose requestId is untracked — here requestId 5 against an empty
tracker — reaches the `unwrap` of `None` (`none` below), i.e. a panic
that aborts the process, instead of ignoring the response and leaving
state unchanged as the specification requires. -/
theorem untracked_response_unwrap_panics :
    handleResponse [] 5 [1, 2] = none := rfl

/-- C4 (counterexample): the ten-continuation-byte payload fails the
outer length-prefix parse with a hard decode error, and the
content-topic handler propagates it as a fatal loop exit (`?` in
`main`) instead of logging and skipping the event. -/
theorem malformed_frame_fatal_cex :
    uviDecode [255, 255, 255, 255, 255, 255, 255, 255, 255, 255] = .err ∧
    handleProviderMsg (fun b => some b) 0 []
      [255, 255, 255, 255, 255, 255, 255, 255, 255, 255] = .error .frameDecode :=
  ⟨rfl, rfl⟩

/-- C4 (amended): an incomplete outer frame or a failed inner schema
parse is logged and skipped with the directory unchanged; but a
malformed outer length prefix on the content topic, or any address
blob the multiaddr parser rejects, propagates a fatal error that
terminates the event loop, and an unparseable address-topic payload
panics. -/
theorem malformed_input_tolerance_amended :
    (∀ (p : ByteStr → Option ByteStr) (src : Nat) (fl : List (ByteStr × Nat)) (data : List Nat),
      uviDecode data = .incomplete →
      handleProviderMsg p src fl data = .ok (fl, [.logInvalidMessage])) ∧
    (∀ (p : ByteStr → Option ByteStr) (src : Nat) (fl : List (ByteStr × Nat))
      (data payload r : List Nat),
      uviDecode data = .frame payload r → decodeAnn payload = none →
      handleProviderMsg p src fl data = .ok (fl, [.logInvalidMessage])) ∧
    (∀ (p : ByteStr → Option ByteStr) (src : Nat) (fl : List (ByteStr × Nat)) (data : List Nat),
      uviDecode data = .err → handleProviderMsg p src fl data = .error .frameDecode) ∧
    (∀ (p : ByteStr → Option ByteStr) (src : Nat) (fl : List (ByteStr × Nat))
      (data payload r : List Nat) (ann : FileAnnouncement),
      uviDecode data = .frame payload r → decodeAnn payload = some ann →
      parseAll p ann.addrs = none →
      handleProviderMsg p src fl data = .error .badAddr) ∧
    (∀ (p : ByteStr → Option ByteStr) (src : Nat) (data : List Nat),
      p data = none → handleAddrsMsg p src data = none) := by
  refine ⟨?_, ?_, ?_, ?_, ?_⟩
  · intro p src fl data h
    simp [handleProviderMsg, h]
  · intro p src fl data payload r h hd
    simp [handleProviderMsg, h, hd]
  · intro p src fl data h
    simp [handleProviderMsg, h]
  · intro p src fl data payload r ann h hd hp
    simp [handleProviderMsg, h, hd, hp]
  · intro p src data h
    simp [handleAddrsMsg, h]

/-- C4 amended-claim witness: a frame whose payload fails the prost
parse is skipped; an incomplete frame is skipped; an unparseable
address-topic payload panics. -/
theorem malformed_input_tolerance_check :
    handleProviderMsg (fun b => some b) 0 [] [1, 255] = .ok ([], [.logInvalidMessage]) ∧
    handleProviderMsg (fun b => some b) 0 [] [5, 0] = .ok ([], [.logInvalidMessage]) ∧
    handleAddrsMsg (fun _ => none) 0 [7] = none :=
  ⟨malformed_input_tolerance_amended.2.1 (fun b => some b) 0 [] [1, 255] [255] []
     (by decide) (by decide),
   malformed_input_tolerance_amended.1 (fun b => some b) 0 [] [5, 0] (by decide),
   malformed_input_tolerance_amended.2.2.2.2 (fun _ => none) 0 [7] rfl⟩

/-- C5: a GET for a name with no directory entry sends nothing, tracks
nothing, logs the no-provider outcome and leaves the tracker as it
was. -/
theorem get_no_provider_noop (fileList : List (ByteStr × Nat))
    (pending : List (Nat × ByteStr)) (rid : Nat) (arg : ByteStr)
    (h : fileList.lookup arg = none) :
    handleGet fileList pending rid arg = (pending, [.logNoProvider arg]) := by
  rw [handleGet, h]

/-- C5 witness: `GET` for "m" against an empty directory. -/
theorem get_no_provider_noop_check :
    ([] : List (ByteStr × Nat)).lookup [109] = none ∧
    handleGet [] [(1, [97])] 9 [109] = ([(1, [97])], [.logNoProvider [109]]) :=
  ⟨rfl, get_no_provider_noop [] [(1, [97])] 9 [109] rfl⟩

/-- C6: responder-side serving — a non-UTF-8 payload, an unoffered
name, or an unreadable file yields no response (logged and dropped);
otherwise the response is exactly the file's content. -/
theorem responder_serving (providing : List (ByteStr × ByteStr))
    (readFile : ByteStr → Option ByteStr) (request : ByteStr) :
    (validUtf8 request = false →
      handleRequest providing readFile request = [.logInvalidRequest request]) ∧
    (providing.lookup request = none →
      handleRequest providing readFile request = [.logInvalidRequest request]) ∧
    (∀ path, providing.lookup request = some path → readFile path = none →
      handleRequest providing readFile request = [.logInvalidRequest request]) ∧
    (∀ path content, validUtf8 request = true → providing.lookup request = some path →
      readFile path = some content →
      handleRequest providing readFile request = [.sendResponse content]) := by
  refine ⟨?_, ?_, ?_, ?_⟩
  · intro h
    simp [handleRequest, serveRequest, h]
  · intro h
    by_cases hu : validUtf8 request <;> simp [handleRequest, serveRequest, h, hu]
  · intro path hp hr
    by_cases hu : validUtf8 request <;> simp [handleRequest, serveRequest, hp, hr, hu]
  · intro path content hu hp hr
    simp [handleRequest, serveRequest, hu, hp, hr]

/-- C6 witness: an offered name "a" at path "p" with readable content
`[9, 9]` is served with exactly those bytes. -/
theorem responder_serving_check :
    handleRequest [([97], [112])] (fun q => if q = [112] then some [9, 9] else none) [97]
      = [.sendResponse [9, 9]] :=
  (responder_serving [([97], [112])]
    (fun q => if q = [112] then some [9, 9] else none) [97]).2.2.2
    [112] [9, 9] (by decide) (by decide) (by decide)

/-- C9: a PUT whose path is openable (opening a directory succeeds on
Unix) but has no final normal component — here `PUT ..` — reaches the
`unwrap()` of the derived file name and panics instead of logging and
continuing. -/
theorem put_dotdot_panics :
    derivedFileName [46, 46] = none ∧
    handlePut (fun _ => true) [] [46, 46] = none :=
  ⟨by decide, rfl⟩

/-- C10 (counterexample): when the stdin stream closes, the fused
lines stream terminates and `select_next_some` disables the branch —
the loop continues on the remaining sources and never reaches the
`expect`, so at this concrete state no "Stdin not to close" panic
occurs, refuting the claimed panic-on-close. -/
theorem stdin_close_no_panic_cex :
    handleStdin (fun _ => true) 0 ⟨[], [], []⟩ .closed = .disabled ∧
    handleStdin (fun _ => true) 0 ⟨[], [], []⟩ .closed ≠ .panicked .stdinNotToClose :=
  ⟨rfl, by decide⟩

/-- C10 (amended): stdin end-of-stream terminates the fused lines
stream, which disables the branch — the event loop runs on
indefinitely over the remaining sources with all state untouched; the
`expect("Stdin not to close")` panic fires exactly when the stream
yields an `Err` read item. -/
theorem stdin_eof_disables_branch (openable : ByteStr → Bool) (rid : Nat) (s : CmdState)
    (e : Unit) :
    handleStdin openable rid s .closed = .disabled ∧
    handleStdin openable rid s (.item (.error e)) = .panicked .stdinNotToClose :=
  ⟨rfl, rfl⟩

/-- C10 witness at a concrete state. -/
theorem stdin_eof_disables_branch_check :
    handleStdin (fun _ => false) 0 ⟨[], [], []⟩ .closed = .disabled ∧
    handleStdin (fun _ => false) 0 ⟨[], [], []⟩ (.item (.error ()))
      = .panicked .stdinNotToClose :=
  stdin_eof_disables_branch (fun _ => false) 0 ⟨[], [], []⟩ ()
/-- C7: periodic announcement refresh — on a timer expiry the node
publishes, for each offered name, exactly one content-topic message
whose payload decodes to the announcement of that name with the
node's current listener set, and rearms the 5-second timer. -/
theorem timer_announce_refresh (providing : List (ByteStr × ByteStr)) (addrs : List ByteStr)
    (hnd : (providing.map Prod.fst).Nodup)
    (hkeys : ∀ k ∈ providing.map Prod.fst,
      validUtf8 k = true ∧ (encodeAnn ⟨k, addrs⟩).length < 2 ^ 64) :
    (timerTick providing addrs).2 = 5 ∧
    (timerTick providing addrs).1
      = providing.map (fun kv => .publish .files (encodeFrame ⟨kv.1, addrs⟩)) ∧
    ∀ name ∈ providing.map Prod.fst,
      ((timerTick providing addrs).1.countP (announcesName addrs name)) = 1 := by
  refine ⟨rfl, rfl, ?_⟩
  intro name hmem
  show ((providing.map fun kv => Effect.publish .files (encodeFrame ⟨kv.1, addrs⟩)).countP
      (announcesName addrs name)) = 1
  rw [List.countP_map]
  have hcongr : ∀ kv ∈ providing,
      (announcesName addrs name ∘ fun kv => Effect.publish .files (encodeFrame ⟨kv.1, addrs⟩)) kv
        = (kv.1 == name) := by
    intro kv hkv
    have hk := hkeys kv.1 (List.mem_map_of_mem Prod.fst hkv)
    simp only [Function.comp_apply, announcesName]
    rw [decodeFrame_encodeFrame ⟨kv.1, addrs⟩ hk.1 hk.2]
    by_cases he : kv.1 = name
    · subst he
      simp
    · have h1 : (⟨kv.1, addrs⟩ : FileAnnouncement) ≠ ⟨name, addrs⟩ := by
        intro hc
        apply he
        cases hc
        rfl
      rw [beq_false_of_ne he, beq_false_of_ne (fun hc => h1 (Option.some.inj hc))]
  rw [List.countP_congr fun x hx => by rw [hcongr x hx]]
  have hx : (providing.map Prod.fst).countP (· == name)
      = providing.countP (fun kv => kv.1 == name) := List.countP_map _ _ _
  rw [← hx]
  exact countP_beq_eq_one name (providing.map Prod.fst) hnd hmem

/-- C7 witness: a single offered name is announced exactly once. -/
theorem timer_announce_refresh_check :
    (timerTick [([104], [104])] [[1]]).1.countP (announcesName [[1]] [104]) = 1 :=
  (timer_announce_refresh [([104], [104])] [[1]] (by decide) (by decide)).2.2 [104] (by decide)

/-- C8: PUT semantics — an unopenable path is logged and leaves the
offered-content store unchanged; an openable path with a derived final
segment is inserted under that name, the insertion overriding any
earlier entry for the name (last write wins) and leaving all other
names unchanged. -/
theorem put_insert_semantics (openable : ByteStr → Bool)
    (providing : List (ByteStr × ByteStr)) (arg : ByteStr) :
    (openable arg = false →
      handlePut openable providing arg = some (providing, [.logCannotAccess arg])) ∧
    (∀ name, openable arg = true → derivedFileName arg = some name →
      handlePut openable providing arg = some (insertKV name arg providing, []) ∧
      (insertKV name arg providing).lookup name = some arg ∧
      ∀ k, k ≠ name → (insertKV name arg providing).lookup k = providing.lookup k) := by
  constructor
  · intro h
    simp [handlePut, h]
  · intro name ho hd
    refine ⟨?_, lookup_insertKV_self name arg providing, ?_⟩
    · simp [handlePut, ho, hd]
    · intro k hk
      exact lookup_insertKV_ne name k arg providing hk

/-- C8 witness: `PUT a/b` over an existing entry for "b": the new path
replaces the old one (last write wins). -/
theorem put_insert_semantics_check :
    handlePut (fun _ => true) [([98], [120])] [97, 47, 98]
      = some (insertKV [98] [97, 47, 98] [([98], [120])], []) ∧
    (insertKV [98] [97, 47, 98] [([98], [120])]).lookup [98] = some [97, 47, 98] :=
  have h := (put_insert_semantics (fun _ => true) [([98], [120])] [97, 47, 98]).2
    [98] rfl (by decide)
  ⟨h.1, h.2.1⟩
end Workshop
